import Mathlib

/-! Verification of the SL Car Finder WhatsApp bot's natural-language
query parser, price normalizer and message dispatcher.

Shallow embedding of `app/utils/query_parser.py`, the price helpers of
`app/utils/pocketbase.py`, and the dispatcher of `app/utils/responses.py`.
Strings are modelled as `List Char`; Python regex matching of the concrete
patterns in the source is implemented literally (first-alternative-wins
alternation, `\b` word boundaries, greedy numeric matching); loops are
modelled with an explicit fuel argument that is always given a sufficient
value (every loop iteration of the source consumes at least one character
or token, so the length of the input bounds the iteration count). -/

set_option maxRecDepth 8000

namespace CarFinder

/-- Characters of a string literal. -/
def chars (s : String) : List Char := s.data

/-- Python `str.isspace` for the characters the model covers (ASCII). -/
def isSpace (c : Char) : Bool := c.isWhitespace

/-- Python regex word character `\w` (ASCII fragment). -/
def wordChar (c : Char) : Bool := c.isAlphanum || c = '_'

/-- Python `str.strip()`: drop leading and trailing whitespace. -/
def pyStrip (l : List Char) : List Char :=
  ((l.dropWhile isSpace).reverse.dropWhile isSpace).reverse

/-- Lower-case then strip, as done by `tokenize`, `parse_search_query`
and `get_message_type` (`query.lower().strip()`). -/
def lowerStrip (l : List Char) : List Char := pyStrip (l.map Char.toLower)

/-! ## Tokenizer (`QueryParser.tokenize`) -/

/-- Token types of `query_parser.TokenType`. -/
inductive TokenType where
  | FIND | CAR | PRICE | LOCATION | YEAR | CONDITION | OPERATOR
  | NUMBER | AND | OR | BETWEEN | HIGHER | LOWER | THAN | UNKNOWN
deriving DecidableEq

/-- A token of `query_parser.Token`. -/
structure Token where
  type : TokenType
  value : List Char
  position : Nat
deriving DecidableEq

/-- The brand alternation of the `TokenType.CAR` pattern, in source order
(the source lists many brands twice; the duplicates are kept verbatim
because Python regex alternation takes the first alternative that
matches, which the duplicates do not change but fidelity demands). -/
def carAlts : List (List Char) :=
  [chars ("toyota"), chars ("honda"), chars ("nissan"), chars ("mazda"),
   chars ("suzuki"), chars ("mitsubishi"), chars ("lexus"), chars ("bmw"),
   chars ("mercedes"), chars ("audi"), chars ("volkswagen"), chars ("hyundai"),
   chars ("kia"), chars ("ford"), chars ("chevrolet"), chars ("dodge"),
   chars ("jeep"), chars ("chrysler"), chars ("volvo"), chars ("land rover"),
   chars ("range rover"), chars ("porsche"), chars ("ferrari"),
   chars ("lamborghini"), chars ("bentley"), chars ("rolls royce"),
   chars ("jaguar"), chars ("maserati"), chars ("aston martin"),
   chars ("mclaren"), chars ("bugatti"), chars ("pagani"),
   chars ("koenigsegg"), chars ("rimac"), chars ("lucid"), chars ("tesla"),
   chars ("rivian"), chars ("polestar"), chars ("genesis"),
   chars ("infiniti"), chars ("acura"), chars ("subaru"), chars ("mini"),
   chars ("fiat"), chars ("alfa romeo"), chars ("peugeot"),
   chars ("renault"), chars ("citroen"), chars ("skoda"), chars ("seat"),
   chars ("opel"), chars ("vauxhall"), chars ("saab"), chars ("rover"),
   chars ("mg"), chars ("tata"), chars ("mahindra"), chars ("maruti"),
   chars ("hyundai"), chars ("kia"), chars ("honda"), chars ("toyota"),
   chars ("nissan"), chars ("mazda"), chars ("suzuki"),
   chars ("mitsubishi"), chars ("lexus"), chars ("bmw"),
   chars ("mercedes"), chars ("audi"), chars ("volkswagen"),
   chars ("ford"), chars ("chevrolet"), chars ("dodge"), chars ("jeep"),
   chars ("chrysler"), chars ("volvo"), chars ("land rover"),
   chars ("range rover"), chars ("porsche"), chars ("ferrari"),
   chars ("lamborghini"), chars ("bentley"), chars ("rolls royce"),
   chars ("jaguar"), chars ("maserati"), chars ("aston martin"),
   chars ("mclaren"), chars ("bugatti"), chars ("pagani"),
   chars ("koenigsegg"), chars ("rimac"), chars ("lucid"),
   chars ("tesla"), chars ("rivian"), chars ("polestar"),
   chars ("genesis"), chars ("infiniti"), chars ("acura"),
   chars ("subaru"), chars ("mini"), chars ("fiat"),
   chars ("alfa romeo"), chars ("peugeot"), chars ("renault"),
   chars ("citroen"), chars ("skoda"), chars ("seat"), chars ("opel"),
   chars ("vauxhall"), chars ("saab"), chars ("rover"), chars ("mg"),
   chars ("tata"), chars ("mahindra"), chars ("maruti")]

/-- Alternatives of the `TokenType.PRICE` pattern. -/
def priceAlts : List (List Char) :=
  [chars ("price"), chars ("cost"), chars ("value"), chars ("worth")]

/-- Alternatives of the `TokenType.LOCATION` pattern. -/
def locationAlts : List (List Char) :=
  [chars ("in"), chars ("at"), chars ("near"), chars ("around"),
   chars ("close to")]

/-- Alternatives of the `TokenType.YEAR` pattern. -/
def yearAlts : List (List Char) :=
  [chars ("year"), chars ("model"), chars ("make")]

/-- Alternatives of the `TokenType.CONDITION` pattern. -/
def conditionAlts : List (List Char) :=
  [chars ("new"), chars ("used"), chars ("old"), chars ("second hand"),
   chars ("pre owned"), chars ("pre-owned")]

/-- Alternatives of the `TokenType.OPERATOR` pattern. -/
def operatorAlts : List (List Char) :=
  [chars (">="), chars ("<="), chars (">"), chars ("<"), chars ("="),
   chars ("!=")]

/-- Alternatives of the `TokenType.HIGHER` pattern. -/
def higherAlts : List (List Char) :=
  [chars ("higher"), chars ("more than"), chars ("above")]

/-- Alternatives of the `TokenType.LOWER` pattern. -/
def lowerAlts : List (List Char) :=
  [chars ("lower"), chars ("less than"), chars ("below")]

/-- Trailing `\b` of a pattern: satisfied when the rest of the slice is
empty or starts with a non-word character (the matched text always ends
in a word character for every alternative used by the source). -/
def boundaryAfter : List Char → Bool
  | [] => true
  | c :: _ => !wordChar c

/-- Python regex alternation anchored with `re.match`: try the
alternatives in order, take the first whose literal text is a prefix of
the slice and whose trailing `\b` holds. -/
def matchAlts : List (List Char) → List Char → Option (List Char × List Char)
  | [], _ => none
  | a :: as, l =>
    if a.isPrefixOf l && boundaryAfter (l.drop a.length) then
      some (a, l.drop a.length)
    else matchAlts as l

/-- Leading `\b` at the start of the slice: holds exactly when the first
character exists and is a word character (Python `\b` at position 0 of a
string). -/
def leadingWordBoundary : List Char → Bool
  | [] => false
  | c :: _ => wordChar c

/-- A keyword pattern of the form `\b(alt|...)\b`. -/
def matchKeyword (alts : List (List Char)) (l : List Char) :
    Option (List Char × List Char) :=
  if leadingWordBoundary l then matchAlts alts l else none

/-- The `^find\b` pattern (no leading `\b`). -/
def matchFind (l : List Char) : Option (List Char × List Char) :=
  if (chars ("find")).isPrefixOf l &&
      boundaryAfter (l.drop (chars ("find")).length) then
    some (chars ("find"), l.drop (chars ("find")).length)
  else none

/-- The `\b(>=|<=|>|<|=|!=)\b` pattern, modelled literally: a leading
`\b` that requires a word character first, then alternatives that all
begin with a non-word character (so the pattern can never match; that
fact is proved below, not assumed). -/
def matchOperator (l : List Char) : Option (List Char × List Char) :=
  if leadingWordBoundary l then matchAlts operatorAlts l else none

/-- The `(?:,\d+)*` part of the number pattern: greedily consume
`,digits` groups. Fuel bounds the iteration count; `l.length` is always
enough because every iteration consumes at least two characters. -/
def commaGroups : Nat → List Char → List Char × List Char
  | 0, l => ([], l)
  | fuel + 1, l =>
    match l with
    | c :: rest =>
      if c = ',' then
        let ds := rest.takeWhile Char.isDigit
        if ds = [] then ([], l)
        else
          match commaGroups fuel (rest.dropWhile Char.isDigit) with
          | (m, r2) => (c :: (ds ++ m), r2)
      else ([], l)
    | [] => ([], l)

/-- The optional `(?:\.\d+)?` tail of the number pattern: the matched
fraction text and the rest of the slice. -/
def fracSplit : List Char → List Char × List Char
  | [] => ([], [])
  | c :: rest =>
    if c = '.' then
      let fd := rest.takeWhile Char.isDigit
      if fd = [] then ([], c :: rest)
      else (c :: fd, rest.dropWhile Char.isDigit)
    else ([], c :: rest)

/-- The `\d+(?:,\d+)*(?:\.\d+)?` pattern (greedy, as the Python regex
matches it). -/
def matchNumber (l : List Char) : Option (List Char × List Char) :=
  let ds := l.takeWhile Char.isDigit
  if ds = [] then none
  else
    let r1 := l.dropWhile Char.isDigit
    match commaGroups r1.length r1 with
    | (g, r2) =>
      match fracSplit r2 with
      | (f, r3) => some (ds ++ g ++ f, r3)

/-- The pattern list of `QueryParser.tokenize`, in source order. -/
def tokenPatterns :
    List (TokenType × (List Char → Option (List Char × List Char))) :=
  [(TokenType.FIND, matchFind),
   (TokenType.CAR, matchKeyword carAlts),
   (TokenType.PRICE, matchKeyword priceAlts),
   (TokenType.LOCATION, matchKeyword locationAlts),
   (TokenType.YEAR, matchKeyword yearAlts),
   (TokenType.CONDITION, matchKeyword conditionAlts),
   (TokenType.OPERATOR, matchOperator),
   (TokenType.NUMBER, matchNumber),
   (TokenType.AND, matchKeyword [chars ("and")]),
   (TokenType.OR, matchKeyword [chars ("or")]),
   (TokenType.BETWEEN, matchKeyword [chars ("between")]),
   (TokenType.HIGHER, matchKeyword higherAlts),
   (TokenType.LOWER, matchKeyword lowerAlts),
   (TokenType.THAN, matchKeyword [chars ("than")])]

/-- First pattern in the list that matches the slice. -/
def firstMatch :
    List (TokenType × (List Char → Option (List Char × List Char))) →
    List Char → Option (TokenType × List Char × List Char)
  | [], _ => none
  | (tt, m) :: ps, l =>
    match m l with
    | some (v, r) => some (tt, v, r)
    | none => firstMatch ps l

/-- The scanning loop of `tokenize`: at each position try the patterns in
order; on no match skip whitespace (counted in the second component) or
emit a single-character UNKNOWN token. Fuel bounds the iterations; every
iteration consumes at least one character, so the input length is a
sufficient fuel value. -/
def scan : Nat → Nat → List Char → List Token × Nat
  | 0, _, _ => ([], 0)
  | fuel + 1, pos, l =>
    match l with
    | [] => ([], 0)
    | c :: rest =>
      match firstMatch tokenPatterns (c :: rest) with
      | some (tt, v, r) =>
        match scan fuel (pos + v.length) r with
        | (ts, k) => (⟨tt, v, pos⟩ :: ts, k)
      | none =>
        if isSpace c then
          match scan fuel (pos + 1) rest with
          | (ts, k) => (ts, k + 1)
        else
          match scan fuel (pos + 1) rest with
          | (ts, k) => (⟨TokenType.UNKNOWN, [c], pos⟩ :: ts, k)

/-- `QueryParser.tokenize`. -/
def tokenize (s : List Char) : List Token :=
  (scan (lowerStrip s).length 0 (lowerStrip s)).1

/-- Total length of the value texts of a token list. -/
def sumValueLens (ts : List Token) : Nat :=
  (ts.map (fun t => t.value.length)).sum

/-- Number of whitespace characters skipped by the scanning loop. -/
def wsSkips (s : List Char) : Nat :=
  (scan (lowerStrip s).length 0 (lowerStrip s)).2

/-! ## Condition extraction (`QueryParser.parse`) -/

/-- Value of a search condition (`Union[str, int, float]` in the source;
the float produced by `float(...)` on a comma-stripped NUMBER token is
modelled exactly as a rational, every value reached by the code being a
decimal literal). -/
inductive CondValue where
  | str (v : List Char)
  | num (v : ℚ)
deriving DecidableEq

/-- `query_parser.SearchCondition`. -/
structure SearchCondition where
  field : List Char
  operator : List Char
  value : CondValue
  logical_operator : List Char := chars ("&&")
deriving DecidableEq

/-- Numeric value of a digit string. -/
def digitsToNat (l : List Char) : Nat :=
  l.foldl (fun a c => a * 10 + (c.toNat - ('0').toNat)) 0

/-- Python `float(...)` on the decimal fragment reachable from a NUMBER
token with its commas removed: `digits`, `digits.`, `.digits` or
`digits.digits`; anything else raises, modelled as `none`. -/
def pyFloat (l : List Char) : Option ℚ :=
  let ds := l.takeWhile Char.isDigit
  match l.dropWhile Char.isDigit with
  | [] => if ds = [] then none else some ((digitsToNat ds : ℚ))
  | c :: rest =>
    if c = '.' then
      let fd := rest.takeWhile Char.isDigit
      if rest.dropWhile Char.isDigit = [] then
        if ds = [] ∧ fd = [] then none
        else some ((digitsToNat ds : ℚ) +
          (digitsToNat fd : ℚ) / ((10 : ℚ) ^ fd.length))
      else none
    else none

/-- Python `value.replace(",", "")`. -/
def removeCommas (l : List Char) : List Char :=
  l.filter (fun c => !(c == ','))

/-- Outcome of `parse_price_condition` at one position: no rule matched,
a rule matched producing conditions (the source appends the first
`between` condition to `self.conditions` directly and returns the second;
both are returned here in that order), or `float(...)` raised. -/
inductive PriceStep where
  | noMatch
  | matched (cs : List SearchCondition) (next : Nat)
  | fail
deriving DecidableEq

/-- The `{HIGHER|LOWER} THAN NUMBER` branch of `parse_price_condition`
(guarded by `current_idx + 2 < len(tokens)` in the source, which is
exactly the requirement that the three indexed tokens exist). -/
def higherStep (ts : List Token) (i : Nat) : PriceStep :=
  match ts[i]?, ts[i + 1]?, ts[i + 2]? with
  | some t0, some t1, some t2 =>
    if (t0.type = TokenType.HIGHER ∨ t0.type = TokenType.LOWER) ∧
        t1.type = TokenType.THAN ∧ t2.type = TokenType.NUMBER then
      match pyFloat (removeCommas t2.value) with
      | some v =>
        PriceStep.matched
          [{ field := chars ("pricing"),
             operator := if t0.type = TokenType.HIGHER then chars (">=")
               else chars ("<="),
             value := CondValue.num v }] (i + 3)
      | none => PriceStep.fail
    else PriceStep.noMatch
  | _, _, _ => PriceStep.noMatch

/-- The `BETWEEN NUMBER AND NUMBER` branch of `parse_price_condition`
(guarded by `current_idx + 3 < len(tokens)`). -/
def betweenStep (ts : List Token) (i : Nat) : PriceStep :=
  match ts[i]?, ts[i + 1]?, ts[i + 2]?, ts[i + 3]? with
  | some t0, some t1, some t2, some t3 =>
    if t0.type = TokenType.BETWEEN ∧ t1.type = TokenType.NUMBER ∧
        t2.type = TokenType.AND ∧ t3.type = TokenType.NUMBER then
      match pyFloat (removeCommas t1.value), pyFloat (removeCommas t3.value) with
      | some v1, some v2 =>
        PriceStep.matched
          [{ field := chars ("pricing"), operator := chars (">="),
             value := CondValue.num v1 },
           { field := chars ("pricing"), operator := chars ("<="),
             value := CondValue.num v2 }] (i + 4)
      | _, _ => PriceStep.fail
    else PriceStep.noMatch
  | _, _, _, _ => PriceStep.noMatch

/-- `QueryParser.parse_price_condition`: the higher/lower branch first,
then the between branch, else no match (a `start_idx` past the end makes
both branches fail their bounds checks, as in the source). -/
def parse_price_condition (ts : List Token) (i : Nat) : PriceStep :=
  match higherStep ts i with
  | PriceStep.noMatch => betweenStep ts i
  | s => s

/-- The collection loop of `parse_car_condition`: values of consecutive
CAR tokens from position `i`, and the index after them. -/
def collectCars : Nat → List Token → Nat → List (List Char) × Nat
  | 0, _, i => ([], i)
  | fuel + 1, ts, i =>
    match ts[i]? with
    | some t =>
      if t.type = TokenType.CAR then
        match collectCars fuel ts (i + 1) with
        | (vs, j) => (t.value :: vs, j)
      else ([], i)
    | none => ([], i)

/-- `QueryParser.parse_car_condition`: one or more consecutive CAR tokens
become a single title condition whose value joins the brand texts with
`"|"`. -/
def parse_car_condition (ts : List Token) (i : Nat) :
    Option (SearchCondition × Nat) :=
  match collectCars (ts.length - i) ts i with
  | (vs, j) =>
    if vs = [] then none
    else some ({ field := chars ("title"), operator := chars ("~"),
                 value := CondValue.str (List.intercalate [('|')] vs) }, j)

/-- The main loop of `QueryParser.parse`. `none` models an uncaught
exception from `float(...)`; fuel bounds the iterations (every iteration
advances the index by at least one, so `len(tokens) + 1` iterations
always reach the loop exit). -/
def parseGo : Nat → List Token → Nat → Option (List SearchCondition)
  | 0, _, _ => some []
  | fuel + 1, ts, i =>
    match ts[i]? with
    | none => some []
    | some t =>
      if t.type = TokenType.FIND then parseGo fuel ts (i + 1)
      else
        match parse_price_condition ts i with
        | PriceStep.fail => none
        | PriceStep.matched cs j =>
          (parseGo fuel ts j).map (fun r => cs ++ r)
        | PriceStep.noMatch =>
          match parse_car_condition ts i with
          | some (c, j) => (parseGo fuel ts j).map (fun r => c :: r)
          | none => parseGo fuel ts (i + 1)

/-- `QueryParser.parse`: tokenize, then extract conditions. -/
def parse (s : List Char) : Option (List SearchCondition) :=
  parseGo ((tokenize s).length + 1) (tokenize s) 0

/-! ## Price normalizer (`PocketBaseClient.parse_price`) -/

/-- Python `str.replace(pattern, "")` for a nonempty pattern: remove
every occurrence, scanning left to right without overlap. Fuel bounds
the iterations; each one consumes at least one character. -/
def replaceAllGo : Nat → List Char → List Char → List Char
  | 0, _, l => l
  | fuel + 1, pat, l =>
    match l with
    | [] => []
    | c :: rest =>
      if pat.isPrefixOf (c :: rest) then
        replaceAllGo fuel pat ((c :: rest).drop pat.length)
      else c :: replaceAllGo fuel pat rest

/-- Python `l.replace(pat, "")`. -/
def replaceAll (pat l : List Char) : List Char := replaceAllGo l.length pat l

/-- Digit run of Python `int(...)` after the optional sign: digits with
single underscores allowed only between digits. -/
def pyIntDigitsGo : Nat → List Char → Option Nat
  | acc, [] => some acc
  | acc, c :: rest =>
    if c.isDigit then pyIntDigitsGo (acc * 10 + (c.toNat - ('0').toNat)) rest
    else
      if c = '_' then
        match rest with
        | c2 :: rest2 =>
          if c2.isDigit then
            pyIntDigitsGo (acc * 10 + (c2.toNat - ('0').toNat)) rest2
          else none
        | [] => none
      else none

/-- Digit part of Python `int(...)`: nonempty, starting with a digit. -/
def pyIntDigits (l : List Char) : Option Nat :=
  match l with
  | [] => none
  | c :: rest =>
    if c.isDigit then pyIntDigitsGo (c.toNat - ('0').toNat) rest else none

/-- Python `int(str)`: strip surrounding whitespace, optional sign, then
a base-10 digit run; anything else raises `ValueError`, modelled as
`none`. -/
def pyInt (l : List Char) : Option Int :=
  match pyStrip l with
  | [] => none
  | c :: rest =>
    if c = '+' then (pyIntDigits rest).map (fun n => (n : Int))
    else if c = '-' then (pyIntDigits rest).map (fun n => -(n : Int))
    else (pyIntDigits (c :: rest)).map (fun n => (n : Int))

/-- `PocketBaseClient.parse_price`:
`price_str.replace("Rs.", "").replace("Rs", "").strip().replace(",", "")`
then `int(...)`; a `ValueError` is re-raised, modelled as `none`. -/
def parse_price (s : List Char) : Option Int :=
  pyInt (removeCommas (pyStrip (replaceAll (chars ("Rs"))
    (replaceAll (chars ("Rs.")) s))))

/-- Modelled from the spec: the remainder that C6's wording tests —
strip only a leading case-insensitive currency prefix "Rs." / "Rs", then
whitespace and all commas. This definition follows the claim's words and
exists to be compared with `parse_price`, which removes the substrings
anywhere in the string. -/
def claimPrefixRemainder (s : List Char) : List Char :=
  let low := s.map Char.toLower
  let stripped :=
    if (chars ("rs.")).isPrefixOf low then s.drop 3
    else if (chars ("rs")).isPrefixOf low then s.drop 2
    else s
  removeCommas (pyStrip stripped)

/-! ## Dispatcher (`responses.get_message_type`, `generate_response`) -/

/-- `GREETING_MESSAGES["hello"]`. -/
def greetingHello : List (List Char) :=
  [chars ("hi"), chars ("hello"), chars ("hey"), chars ("start")]

/-- `RESPONSES["greeting"]`. -/
def RESPONSES_greeting : List Char :=
  chars ("Hello! 👋 Welcome to the SL Car Finder bot.\n\nI can help you find cars using natural language queries. Just tell me what you\x27re looking for!\n\n🔍 Basic Search:\n- find toyota aqua\n- find honda civic\n- find bmw\n\n💰 Price Filters:\n- find aqua higher than 5,000,000\n- find civic lower than 8,000,000\n- find prius between 6,000,000 - 9,000,000\n\n🚗 Car Condition:\n- find new toyota prius\n- find used honda fit\n- find second hand aqua\n\n🔄 Combined Filters:\n- find new toyota aqua between 5,000,000 - 8,000,000\n- find used honda civic higher than 7,000,000\n- find prius lower than 6,500,000\n\n💡 Tips:\n- Start your query with \x27find\x27\n- Use natural language (e.g., \x27higher than\x27, \x27lower than\x27, \x27between\x27)\n- Combine multiple conditions in one query\n- Send \x27next\x27 to see more results\n\nTry any of these examples or create your own query!")

/-- `RESPONSES["unknown"]`. -/
def RESPONSES_unknown : List Char :=
  chars ("I\x27m not sure how to respond to that. Send \x27hi\x27 for help.")

/-- `RESPONSES["no_search_term"]`. -/
def RESPONSES_no_search_term : List Char :=
  chars ("Please provide what car you\x27re looking for.\nExample: find toyota aqua")

/-- `RESPONSES["no_previous_search"]`. -/
def RESPONSES_no_previous_search : List Char :=
  chars ("You haven\x27t performed a search yet. Please start with \x27find\x27 followed by the car name.")

/-- `RESPONSES["end_of_results"]`. -/
def RESPONSES_end_of_results : List Char :=
  chars ("You\x27ve reached the end of the search results. Try a new search with \x27find\x27.")

/-- `RESPONSES.get(message_type, RESPONSES["unknown"])`. -/
def RESPONSES_get (k : List Char) : List Char :=
  if k = chars ("greeting") then RESPONSES_greeting
  else if k = chars ("unknown") then RESPONSES_unknown
  else if k = chars ("no_search_term") then RESPONSES_no_search_term
  else if k = chars ("no_previous_search") then RESPONSES_no_previous_search
  else if k = chars ("end_of_results") then RESPONSES_end_of_results
  else RESPONSES_unknown

/-- `responses.get_message_type`. -/
def get_message_type (message : List Char) : List Char × Option (List Char) :=
  let m := lowerStrip message
  if m ∈ greetingHello then (chars ("greeting"), none)
  else if (chars ("find ")).isPrefixOf m then
    let st := pyStrip (m.drop 5)
    if st = [] then (chars ("no_search_term"), none)
    else (chars ("car_search"), some st)
  else if m = chars ("next") then (chars ("next_page"), none)
  else (chars ("unknown"), none)

/-- The stored WhatsApp user record, as read by the next-page branch
(`user.last_search_query`, `user.current_page`; Python falsiness of the
empty string and of `None`/`0` is modelled by `[]` and `0`). -/
structure WhatsappUser where
  last_search_query : List Char
  current_page : Nat

/-- Python truthiness of the optional `user_id` argument. -/
def optTruthy (o : Option (List Char)) : Bool :=
  match o with
  | some s => !s.isEmpty
  | none => false

/-- `responses.generate_response`, with the external record store
abstracted: `svt` is `pb_client.search_vehicles_by_title`, `fmt` is
`pb_client.format_search_results`, `resultsEmpty` tests
`not results['items']`, and `lookupUser` is the result of
`get_one(user_id)` (`none` models the call raising, which the
surrounding `except` turns into the unknown response). -/
def generate_response {Res : Type} (svt : List Char → Nat → Res)
    (fmt : Res → List Char) (resultsEmpty : Res → Bool)
    (lookupUser : Option WhatsappUser) (message : List Char)
    (user_id : Option (List Char)) : List Char :=
  match get_message_type message with
  | (mt, st) =>
    if mt = chars ("car_search") then fmt (svt (st.getD []) 1)
    else if mt = chars ("next_page") ∧ optTruthy user_id = true then
      match lookupUser with
      | none => RESPONSES_unknown
      | some user =>
        if user.last_search_query = [] then RESPONSES_no_previous_search
        else
          let page := (if user.current_page = 0 then 1
            else user.current_page) + 1
          let results := svt user.last_search_query page
          if resultsEmpty results then RESPONSES_end_of_results
          else fmt results
    else RESPONSES_get mt

/-! ## List helper lemmas -/

theorem takeWhile_append_all {p : Char → Bool} :
    ∀ (a b : List Char), (∀ c ∈ a, p c = true) →
      (a ++ b).takeWhile p = a ++ b.takeWhile p := by
  intro a
  induction a with
  | nil => intro b _; simp
  | cons x xs ih =>
    intro b h
    have hx : p x = true := h x (List.mem_cons_self _ _)
    simp only [List.cons_append, List.takeWhile_cons_of_pos hx]
    rw [ih b (fun c hc => h c (List.mem_cons_of_mem _ hc))]

theorem dropWhile_append_all {p : Char → Bool} :
    ∀ (a b : List Char), (∀ c ∈ a, p c = true) →
      (a ++ b).dropWhile p = b.dropWhile p := by
  intro a
  induction a with
  | nil => intro b _; simp
  | cons x xs ih =>
    intro b h
    have hx : p x = true := h x (List.mem_cons_self _ _)
    simp only [List.cons_append, List.dropWhile_cons_of_pos hx]
    exact ih b (fun c hc => h c (List.mem_cons_of_mem _ hc))

theorem takeWhile_all {p : Char → Bool} (a : List Char)
    (h : ∀ c ∈ a, p c = true) : a.takeWhile p = a :=
  List.takeWhile_eq_self_iff.mpr h

theorem dropWhile_all {p : Char → Bool} (a : List Char)
    (h : ∀ c ∈ a, p c = true) : a.dropWhile p = [] :=
  List.dropWhile_eq_nil_iff.mpr h

theorem prefix_drop_append {v l : List Char} (h : v.isPrefixOf l = true) :
    v ++ l.drop v.length = l := by
  obtain ⟨t, rfl⟩ := List.isPrefixOf_iff_prefix.mp h
  rw [List.drop_left]

theorem pyStrip_decomp (l : List Char) :
    ∃ pre post : List Char,
      l = pre ++ pyStrip l ++ post ∧
      (∀ c ∈ pre, isSpace c = true) ∧ (∀ c ∈ post, isSpace c = true) := by
  refine ⟨l.takeWhile isSpace,
    ((l.dropWhile isSpace).reverse.takeWhile isSpace).reverse, ?_, ?_, ?_⟩
  · unfold pyStrip
    conv_lhs => rw [← List.takeWhile_append_dropWhile (p := isSpace) (l := l)]
    rw [List.append_assoc]
    congr 1
    conv_lhs => rw [← List.reverse_reverse (l.dropWhile isSpace),
      ← List.takeWhile_append_dropWhile (p := isSpace)
        (l := (l.dropWhile isSpace).reverse)]
    rw [List.reverse_append]
  · intro c hc; exact List.mem_takeWhile_imp hc
  · intro c hc
    rw [List.mem_reverse] at hc
    exact List.mem_takeWhile_imp hc

/-! ## Matcher lemmas -/

theorem matchAlts_sound :
    ∀ (alts : List (List Char)) (l v r : List Char),
      matchAlts alts l = some (v, r) →
      v ∈ alts ∧ v.isPrefixOf l = true ∧ r = l.drop v.length := by
  intro alts
  induction alts with
  | nil => intro l v r h; simp [matchAlts] at h
  | cons a as ih =>
    intro l v r h
    simp only [matchAlts] at h
    split at h
    · rename_i hc
      rw [Option.some.injEq, Prod.mk.injEq] at h
      obtain ⟨rfl, rfl⟩ := h
      rw [Bool.and_eq_true] at hc
      exact ⟨List.mem_cons_self _ _, hc.1, rfl⟩
    · obtain ⟨hm, hp, hr⟩ := ih l v r h
      exact ⟨List.mem_cons_of_mem _ hm, hp, hr⟩

theorem matchKeyword_sound {alts : List (List Char)} {l v r : List Char}
    (h : matchKeyword alts l = some (v, r)) : v ∈ alts ∧ v ++ r = l := by
  unfold matchKeyword at h
  split at h
  · obtain ⟨hm, hp, hr⟩ := matchAlts_sound _ _ _ _ h
    refine ⟨hm, ?_⟩
    rw [hr]
    exact prefix_drop_append hp
  · exact absurd h (by simp)

theorem matchKeyword_split {alts : List (List Char)} {l v r : List Char}
    (hne : ([] : List Char) ∉ alts) (h : matchKeyword alts l = some (v, r)) :
    v ≠ [] ∧ v ++ r = l := by
  obtain ⟨hm, hs⟩ := matchKeyword_sound h
  exact ⟨fun he => hne (he ▸ hm), hs⟩

theorem matchFind_split {l v r : List Char}
    (h : matchFind l = some (v, r)) : v ≠ [] ∧ v ++ r = l := by
  unfold matchFind at h
  split at h
  · rename_i hc
    rw [Option.some.injEq, Prod.mk.injEq] at h
    obtain ⟨rfl, rfl⟩ := h
    rw [Bool.and_eq_true] at hc
    exact ⟨by decide, prefix_drop_append hc.1⟩
  · exact absurd h (by simp)

theorem wordChar_ne_op {c : Char} (h : wordChar c = true) :
    c ≠ '>' ∧ c ≠ '<' ∧ c ≠ '=' ∧ c ≠ '!' := by
  refine ⟨?_, ?_, ?_, ?_⟩ <;> (rintro rfl; revert h; decide)

theorem matchOperator_eq_none (l : List Char) : matchOperator l = none := by
  unfold matchOperator
  split
  · rename_i hb
    cases l with
    | nil => exact absurd hb (by simp [leadingWordBoundary])
    | cons c t =>
      have h : wordChar c = true := hb
      obtain ⟨h1, h2, h3, h4⟩ := wordChar_ne_op h
      have b1 : (('>') == c) = false := by
        cases hb : ('>') == c
        · rfl
        · exact absurd (eq_of_beq hb).symm h1
      have b2 : (('<') == c) = false := by
        cases hb : ('<') == c
        · rfl
        · exact absurd (eq_of_beq hb).symm h2
      have b3 : (('=') == c) = false := by
        cases hb : ('=') == c
        · rfl
        · exact absurd (eq_of_beq hb).symm h3
      have b4 : (('!') == c) = false := by
        cases hb : ('!') == c
        · rfl
        · exact absurd (eq_of_beq hb).symm h4
      have e1 : chars (">=") = [('>'), ('=')] := rfl
      have e2 : chars ("<=") = [('<'), ('=')] := rfl
      have e3 : chars (">") = [('>')] := rfl
      have e4 : chars ("<") = [('<')] := rfl
      have e5 : chars ("=") = [('=')] := rfl
      have e6 : chars ("!=") = [('!'), ('=')] := rfl
      simp [matchAlts, operatorAlts, e1, e2, e3, e4, e5, e6,
        List.isPrefixOf, b1, b2, b3, b4]
  · rfl

theorem commaGroups_split :
    ∀ (fuel : Nat) (l : List Char),
      (commaGroups fuel l).1 ++ (commaGroups fuel l).2 = l := by
  intro fuel
  induction fuel with
  | zero => intro l; rfl
  | succ fuel ih =>
    intro l
    cases l with
    | nil => rfl
    | cons c rest =>
      simp only [commaGroups]
      split
      · split
        · rfl
        · rcases hg : commaGroups fuel (rest.dropWhile Char.isDigit)
            with ⟨m, r2⟩
          have hmr : m ++ r2 = rest.dropWhile Char.isDigit := by
            have := ih (rest.dropWhile Char.isDigit)
            rw [hg] at this
            exact this
          simp only [hg, List.cons_append, List.cons.injEq, true_and]
          rw [List.append_assoc, hmr,
            List.takeWhile_append_dropWhile]
      · rfl

theorem commaGroups_chars :
    ∀ (fuel : Nat) (l : List Char) (c : Char),
      c ∈ (commaGroups fuel l).1 → c = ',' ∨ c.isDigit = true := by
  intro fuel
  induction fuel with
  | zero => intro l c hc; simp [commaGroups] at hc
  | succ fuel ih =>
    intro l c hc
    cases l with
    | nil => simp [commaGroups] at hc
    | cons x rest =>
      simp only [commaGroups] at hc
      split at hc
      · rename_i hx
        split at hc
        · simp at hc
        · rcases hg : commaGroups fuel (rest.dropWhile Char.isDigit)
            with ⟨m, r2⟩
          simp only [hg, List.mem_cons, List.mem_append] at hc
          rcases hc with rfl | hc | hc
          · exact Or.inl hx
          · exact Or.inr (List.mem_takeWhile_imp hc)
          · have hm := ih (rest.dropWhile Char.isDigit) c
            rw [hg] at hm
            exact hm hc
      · simp at hc

theorem fracSplit_spec (r2 : List Char) :
    (fracSplit r2).1 ++ (fracSplit r2).2 = r2 ∧
    ((fracSplit r2).1 = [] ∨
      ∃ fd, fd ≠ [] ∧ (∀ c ∈ fd, c.isDigit = true) ∧
        (fracSplit r2).1 = ('.') :: fd) := by
  cases r2 with
  | nil => exact ⟨rfl, Or.inl rfl⟩
  | cons c rest =>
    simp only [fracSplit]
    split
    · rename_i hdot
      split
      · exact ⟨rfl, Or.inl rfl⟩
      · rename_i hfd
        constructor
        · subst hdot
          rw [List.cons_append, List.takeWhile_append_dropWhile]
        · exact Or.inr ⟨rest.takeWhile Char.isDigit, hfd,
            fun c hc => List.mem_takeWhile_imp hc, by rw [hdot]⟩
    · exact ⟨rfl, Or.inl rfl⟩

theorem matchNumber_cases {l v r : List Char}
    (h : matchNumber l = some (v, r)) :
    l.takeWhile Char.isDigit ≠ [] ∧
    ∃ g f,
      (∀ c ∈ g, c = ',' ∨ c.isDigit = true) ∧
      (f = [] ∨ ∃ fd, fd ≠ [] ∧ (∀ c ∈ fd, c.isDigit = true) ∧
        f = ('.') :: fd) ∧
      v = l.takeWhile Char.isDigit ++ g ++ f ∧ v ++ r = l := by
  simp only [matchNumber] at h
  split at h
  · exact absurd h (by simp)
  · rename_i hds
    rcases hg : commaGroups (l.dropWhile Char.isDigit).length
        (l.dropWhile Char.isDigit) with ⟨g, r2⟩
    simp only [hg] at h
    rcases hf : fracSplit r2 with ⟨f, r3⟩
    simp only [hf] at h
    rw [Option.some.injEq, Prod.mk.injEq] at h
    obtain ⟨rfl, rfl⟩ := h
    have hfs := fracSplit_spec r2
    rw [hf] at hfs
    have hgr : g ++ r2 = l.dropWhile Char.isDigit := by
      have hcs := commaGroups_split (l.dropWhile Char.isDigit).length
        (l.dropWhile Char.isDigit)
      rw [hg] at hcs
      exact hcs
    have hgc : ∀ c ∈ g, c = ',' ∨ c.isDigit = true := by
      intro c hc
      have hcc := commaGroups_chars (l.dropWhile Char.isDigit).length
        (l.dropWhile Char.isDigit) c
      rw [hg] at hcc
      exact hcc hc
    refine ⟨hds, g, f, hgc, hfs.2, rfl, ?_⟩
    calc (l.takeWhile Char.isDigit ++ g ++ f) ++ r3
        = l.takeWhile Char.isDigit ++ (g ++ (f ++ r3)) := by
          simp [List.append_assoc]
      _ = l.takeWhile Char.isDigit ++ (g ++ r2) := by rw [hfs.1]
      _ = l.takeWhile Char.isDigit ++ l.dropWhile Char.isDigit := by
          rw [hgr]
      _ = l := List.takeWhile_append_dropWhile Char.isDigit l

theorem matchNumber_split {l v r : List Char}
    (h : matchNumber l = some (v, r)) : v ≠ [] ∧ v ++ r = l := by
  obtain ⟨hds, g, f, _, _, hv, hvr⟩ := matchNumber_cases h
  refine ⟨?_, hvr⟩
  subst hv
  intro he
  rw [List.append_assoc, List.append_eq_nil] at he
  exact hds he.1

/-! ## Pattern-list lemmas -/

theorem matchFind_value {l v r : List Char}
    (h : matchFind l = some (v, r)) : v = chars ("find") := by
  unfold matchFind at h
  split at h
  · rw [Option.some.injEq, Prod.mk.injEq] at h
    exact h.1.symm
  · exact absurd h (by simp)

theorem firstMatch_mem :
    ∀ (ps : List (TokenType × (List Char → Option (List Char × List Char))))
      (l : List Char) (tt : TokenType) (v r : List Char),
      firstMatch ps l = some (tt, v, r) →
      ∃ m, (tt, m) ∈ ps ∧ m l = some (v, r) := by
  intro ps
  induction ps with
  | nil => intro l tt v r h; simp [firstMatch] at h
  | cons p ps ih =>
    intro l tt v r h
    obtain ⟨tt2, m2⟩ := p
    simp only [firstMatch] at h
    cases hm : m2 l with
    | none =>
      simp only [hm] at h
      obtain ⟨m, hmem, hml⟩ := ih l tt v r h
      exact ⟨m, List.mem_cons_of_mem _ hmem, hml⟩
    | some vr =>
      obtain ⟨v2, r2⟩ := vr
      simp only [hm, Option.some.injEq, Prod.mk.injEq] at h
      obtain ⟨rfl, rfl, rfl⟩ := h
      exact ⟨m2, List.mem_cons_self _ _, hm⟩

theorem firstMatch_split {l : List Char} {tt : TokenType} {v r : List Char}
    (h : firstMatch tokenPatterns l = some (tt, v, r)) :
    v ≠ [] ∧ v ++ r = l := by
  obtain ⟨m, hmem, hml⟩ := firstMatch_mem _ _ _ _ _ h
  simp only [tokenPatterns, List.mem_cons, List.not_mem_nil, or_false,
    Prod.mk.injEq] at hmem
  rcases hmem with hq | hq | hq | hq | hq | hq | hq | hq | hq | hq | hq |
    hq | hq | hq <;> obtain ⟨rfl, rfl⟩ := hq
  · obtain ⟨hne, hs⟩ := matchFind_split hml
    exact ⟨hne, hs⟩
  · exact matchKeyword_split (by decide) hml
  · exact matchKeyword_split (by decide) hml
  · exact matchKeyword_split (by decide) hml
  · exact matchKeyword_split (by decide) hml
  · exact matchKeyword_split (by decide) hml
  · rw [matchOperator_eq_none] at hml
    exact absurd hml (by simp)
  · exact matchNumber_split hml
  · exact matchKeyword_split (by decide) hml
  · exact matchKeyword_split (by decide) hml
  · exact matchKeyword_split (by decide) hml
  · exact matchKeyword_split (by decide) hml
  · exact matchKeyword_split (by decide) hml
  · exact matchKeyword_split (by decide) hml

theorem firstMatch_not_operator {l : List Char} {tt : TokenType}
    {v r : List Char} (h : firstMatch tokenPatterns l = some (tt, v, r)) :
    tt ≠ TokenType.OPERATOR := by
  obtain ⟨m, hmem, hml⟩ := firstMatch_mem _ _ _ _ _ h
  simp only [tokenPatterns, List.mem_cons, List.not_mem_nil, or_false,
    Prod.mk.injEq] at hmem
  rcases hmem with hq | hq | hq | hq | hq | hq | hq | hq | hq | hq | hq |
    hq | hq | hq <;> obtain ⟨rfl, rfl⟩ := hq
  all_goals first
  | decide
  | (rw [matchOperator_eq_none] at hml; exact absurd hml (by simp))

theorem char_class_not_op {c : Char}
    (h : c.isDigit = true ∨ c = ',' ∨ c = '.') :
    ¬(c = '>' ∨ c = '<' ∨ c = '=' ∨ c = '!') := by
  intro hop
  rcases hop with rfl | rfl | rfl | rfl <;> (revert h; decide)

theorem firstMatch_value_ops {l : List Char} {tt : TokenType}
    {v r : List Char} (h : firstMatch tokenPatterns l = some (tt, v, r)) :
    ∀ c ∈ v, ¬(c = '>' ∨ c = '<' ∨ c = '=' ∨ c = '!') := by
  obtain ⟨m, hmem, hml⟩ := firstMatch_mem _ _ _ _ _ h
  simp only [tokenPatterns, List.mem_cons, List.not_mem_nil, or_false,
    Prod.mk.injEq] at hmem
  rcases hmem with hq | hq | hq | hq | hq | hq | hq | hq | hq | hq | hq |
    hq | hq | hq <;> obtain ⟨rfl, rfl⟩ := hq
  · rw [matchFind_value hml]
    decide
  · exact fun c hc =>
      (by decide : ∀ a ∈ carAlts, ∀ c ∈ a,
        ¬(c = '>' ∨ c = '<' ∨ c = '=' ∨ c = '!'))
      v (matchKeyword_sound hml).1 c hc
  · exact fun c hc =>
      (by decide : ∀ a ∈ priceAlts, ∀ c ∈ a,
        ¬(c = '>' ∨ c = '<' ∨ c = '=' ∨ c = '!'))
      v (matchKeyword_sound hml).1 c hc
  · exact fun c hc =>
      (by decide : ∀ a ∈ locationAlts, ∀ c ∈ a,
        ¬(c = '>' ∨ c = '<' ∨ c = '=' ∨ c = '!'))
      v (matchKeyword_sound hml).1 c hc
  · exact fun c hc =>
      (by decide : ∀ a ∈ yearAlts, ∀ c ∈ a,
        ¬(c = '>' ∨ c = '<' ∨ c = '=' ∨ c = '!'))
      v (matchKeyword_sound hml).1 c hc
  · exact fun c hc =>
      (by decide : ∀ a ∈ conditionAlts, ∀ c ∈ a,
        ¬(c = '>' ∨ c = '<' ∨ c = '=' ∨ c = '!'))
      v (matchKeyword_sound hml).1 c hc
  · rw [matchOperator_eq_none] at hml
    exact absurd hml (by simp)
  · obtain ⟨hds, g, f, hg, hf, hv, _⟩ := matchNumber_cases hml
    subst hv
    intro c hc
    apply char_class_not_op
    simp only [List.append_assoc, List.mem_append] at hc
    rcases hc with hc | hc | hc
    · exact Or.inl (List.mem_takeWhile_imp hc)
    · rcases hg c hc with rfl | hd
      · exact Or.inr (Or.inl rfl)
      · exact Or.inl hd
    · rcases hf with rfl | ⟨fd, _, hfd, rfl⟩
      · simp at hc
      · rcases List.mem_cons.mp hc with rfl | hc
        · exact Or.inr (Or.inr rfl)
        · exact Or.inl (hfd c hc)
  · exact fun c hc =>
      (by decide : ∀ a ∈ [chars ("and")], ∀ c ∈ a,
        ¬(c = '>' ∨ c = '<' ∨ c = '=' ∨ c = '!'))
      v (matchKeyword_sound hml).1 c hc
  · exact fun c hc =>
      (by decide : ∀ a ∈ [chars ("or")], ∀ c ∈ a,
        ¬(c = '>' ∨ c = '<' ∨ c = '=' ∨ c = '!'))
      v (matchKeyword_sound hml).1 c hc
  · exact fun c hc =>
      (by decide : ∀ a ∈ [chars ("between")], ∀ c ∈ a,
        ¬(c = '>' ∨ c = '<' ∨ c = '=' ∨ c = '!'))
      v (matchKeyword_sound hml).1 c hc
  · exact fun c hc =>
      (by decide : ∀ a ∈ higherAlts, ∀ c ∈ a,
        ¬(c = '>' ∨ c = '<' ∨ c = '=' ∨ c = '!'))
      v (matchKeyword_sound hml).1 c hc
  · exact fun c hc =>
      (by decide : ∀ a ∈ lowerAlts, ∀ c ∈ a,
        ¬(c = '>' ∨ c = '<' ∨ c = '=' ∨ c = '!'))
      v (matchKeyword_sound hml).1 c hc
  · exact fun c hc =>
      (by decide : ∀ a ∈ [chars ("than")], ∀ c ∈ a,
        ¬(c = '>' ∨ c = '<' ∨ c = '=' ∨ c = '!'))
      v (matchKeyword_sound hml).1 c hc

/-! ## NUMBER tokens always survive `float(...)` -/

theorem bne_comma_of_ne {a : Char} (h : a ≠ ',') : (!(a == ',')) = true := by
  cases hb : a == ','
  · rfl
  · exact absurd (eq_of_beq hb) h

theorem digit_ne_comma {a : Char} (h : a.isDigit = true) : a ≠ ',' := by
  rintro rfl
  exact absurd h (by decide)

theorem pyFloat_digits_frac (D f : List Char)
    (hD : ∀ c ∈ D, c.isDigit = true) (hDne : D ≠ [])
    (hf : f = [] ∨ ∃ fd, fd ≠ [] ∧ (∀ c ∈ fd, c.isDigit = true) ∧
      f = ('.') :: fd) :
    (pyFloat (D ++ f)).isSome = true := by
  rcases hf with rfl | ⟨fd, hfdne, hfd, rfl⟩
  · rw [List.append_nil]
    simp only [pyFloat]
    rw [takeWhile_all D hD, dropWhile_all D hD]
    simp [hDne]
  · simp only [pyFloat]
    rw [takeWhile_append_all D (('.') :: fd) hD,
      dropWhile_append_all D (('.') :: fd) hD,
      List.takeWhile_cons_of_neg (p := Char.isDigit) (by decide),
      List.dropWhile_cons_of_neg (p := Char.isDigit) (by decide)]
    simp [takeWhile_all fd hfd, dropWhile_all fd hfd, hDne]

theorem matchNumber_pyFloat {l v r : List Char}
    (h : matchNumber l = some (v, r)) :
    (pyFloat (removeCommas v)).isSome = true := by
  obtain ⟨hds, g, f, hg, hf, hv, _⟩ := matchNumber_cases h
  subst hv
  have h1 : removeCommas (l.takeWhile Char.isDigit) =
      l.takeWhile Char.isDigit := by
    rw [removeCommas, List.filter_eq_self]
    exact fun a ha =>
      bne_comma_of_ne (digit_ne_comma (List.mem_takeWhile_imp ha))
  have h3 : removeCommas f = f := by
    rcases hf with rfl | ⟨fd, _, hfd, rfl⟩
    · rfl
    · rw [removeCommas, List.filter_eq_self]
      intro a ha
      rcases List.mem_cons.mp ha with rfl | ha
      · decide
      · exact bne_comma_of_ne (digit_ne_comma (hfd a ha))
  have hgf : ∀ c ∈ removeCommas g, c.isDigit = true := by
    intro c hc
    obtain ⟨hcg, hcb⟩ := List.mem_filter.mp hc
    rcases hg c hcg with rfl | hd
    · exact absurd hcb (by decide)
    · exact hd
  have hrw : removeCommas (l.takeWhile Char.isDigit ++ g ++ f) =
      (l.takeWhile Char.isDigit ++ removeCommas g) ++ f := by
    rw [removeCommas, List.filter_append, List.filter_append,
      ← removeCommas, ← removeCommas, ← removeCommas, h1, h3,
      List.append_assoc, ← List.append_assoc]
  rw [hrw]
  apply pyFloat_digits_frac _ _ _ _ hf
  · intro c hc
    rcases List.mem_append.mp hc with hc | hc
    · exact List.mem_takeWhile_imp hc
    · exact hgf c hc
  · intro he
    rw [List.append_eq_nil] at he
    exact hds he.1

/-! ## Scanning-loop invariants -/

theorem scan_len :
    ∀ (fuel pos : Nat) (l : List Char), l.length ≤ fuel →
      sumValueLens (scan fuel pos l).1 + (scan fuel pos l).2 = l.length := by
  intro fuel
  induction fuel with
  | zero =>
    intro pos l hl
    have hnil : l = [] := List.length_eq_zero.mp (Nat.le_zero.mp hl)
    subst hnil
    rfl
  | succ fuel ih =>
    intro pos l hl
    cases l with
    | nil => rfl
    | cons c rest =>
      simp only [scan]
      cases hm : firstMatch tokenPatterns (c :: rest) with
      | some x =>
        obtain ⟨tt, v, r⟩ := x
        obtain ⟨hv, hvr⟩ := firstMatch_split hm
        rcases hs : scan fuel (pos + v.length) r with ⟨ts, k⟩
        simp only [hm, hs]
        have hlen : v.length + r.length = rest.length + 1 := by
          have hl2 : (v ++ r).length = (c :: rest).length := by rw [hvr]
          simpa [List.length_append] using hl2
        have hv1 : 1 ≤ v.length := by
          cases v with
          | nil => exact absurd rfl hv
          | cons a b => simp
        have hrlen : r.length ≤ fuel := by
          simp only [List.length_cons] at hl
          omega
        have hrec := ih (pos + v.length) r hrlen
        rw [hs] at hrec
        simp [sumValueLens] at hrec ⊢
        omega
      | none =>
        have hrlen : rest.length ≤ fuel := by
          simp only [List.length_cons] at hl
          omega
        simp only [hm]
        split
        · rcases hs : scan fuel (pos + 1) rest with ⟨ts, k⟩
          simp only [hs]
          have hrec := ih (pos + 1) rest hrlen
          rw [hs] at hrec
          simp [sumValueLens] at hrec ⊢
          omega
        · rcases hs : scan fuel (pos + 1) rest with ⟨ts, k⟩
          simp only [hs]
          have hrec := ih (pos + 1) rest hrlen
          rw [hs] at hrec
          simp [sumValueLens] at hrec ⊢
          omega

theorem scan_tokens_ops :
    ∀ (fuel pos : Nat) (l : List Char) (t : Token),
      t ∈ (scan fuel pos l).1 →
      t.type ≠ TokenType.OPERATOR ∧
      (∀ c ∈ t.value, (c = '>' ∨ c = '<' ∨ c = '=' ∨ c = '!') →
        t.type = TokenType.UNKNOWN ∧ t.value = [c]) := by
  intro fuel
  induction fuel with
  | zero => intro pos l t ht; simp [scan] at ht
  | succ fuel ih =>
    intro pos l t ht
    cases l with
    | nil => simp [scan] at ht
    | cons c rest =>
      simp only [scan] at ht
      cases hm : firstMatch tokenPatterns (c :: rest) with
      | some x =>
        obtain ⟨tt, v, r⟩ := x
        rcases hs : scan fuel (pos + v.length) r with ⟨ts, k⟩
        simp only [hm, hs, List.mem_cons] at ht
        rcases ht with rfl | ht
        · refine ⟨firstMatch_not_operator hm, ?_⟩
          intro ch hch hop
          exact absurd hop (firstMatch_value_ops hm ch hch)
        · apply ih (pos + v.length) r t
          rw [hs]
          exact ht
      | none =>
        simp only [hm] at ht
        split at ht
        · rcases hs : scan fuel (pos + 1) rest with ⟨ts, k⟩
          simp only [hs] at ht
          apply ih (pos + 1) rest t
          rw [hs]
          exact ht
        · rcases hs : scan fuel (pos + 1) rest with ⟨ts, k⟩
          simp only [hs, List.mem_cons] at ht
          rcases ht with rfl | ht
          · refine ⟨fun h => TokenType.noConfusion h, ?_⟩
            intro ch hch hop
            have hchc : ch = c := by simpa using hch
            subst hchc
            exact ⟨rfl, rfl⟩
          · apply ih (pos + 1) rest t
            rw [hs]
            exact ht

theorem scan_number_float :
    ∀ (fuel pos : Nat) (l : List Char) (t : Token),
      t ∈ (scan fuel pos l).1 → t.type = TokenType.NUMBER →
      (pyFloat (removeCommas t.value)).isSome = true := by
  intro fuel
  induction fuel with
  | zero => intro pos l t ht; simp [scan] at ht
  | succ fuel ih =>
    intro pos l t ht htype
    cases l with
    | nil => simp [scan] at ht
    | cons c rest =>
      simp only [scan] at ht
      cases hm : firstMatch tokenPatterns (c :: rest) with
      | some x =>
        obtain ⟨tt, v, r⟩ := x
        rcases hs : scan fuel (pos + v.length) r with ⟨ts, k⟩
        simp only [hm, hs, List.mem_cons] at ht
        rcases ht with rfl | ht
        · have httn : tt = TokenType.NUMBER := htype
          subst httn
          obtain ⟨m, hmem, hml⟩ := firstMatch_mem _ _ _ _ _ hm
          simp only [tokenPatterns, List.mem_cons, List.not_mem_nil,
            or_false, Prod.mk.injEq] at hmem
          simp at hmem
          obtain rfl := hmem
          exact matchNumber_pyFloat hml
        · apply ih (pos + v.length) r t _ htype
          rw [hs]
          exact ht
      | none =>
        simp only [hm] at ht
        split at ht
        · rcases hs : scan fuel (pos + 1) rest with ⟨ts, k⟩
          simp only [hs] at ht
          apply ih (pos + 1) rest t _ htype
          rw [hs]
          exact ht
        · rcases hs : scan fuel (pos + 1) rest with ⟨ts, k⟩
          simp only [hs, List.mem_cons] at ht
          rcases ht with rfl | ht
          · exact TokenType.noConfusion htype
          · apply ih (pos + 1) rest t _ htype
            rw [hs]
            exact ht

theorem tokenize_number_float (s : List Char) :
    ∀ t ∈ tokenize s, t.type = TokenType.NUMBER →
      (pyFloat (removeCommas t.value)).isSome = true := by
  intro t ht
  exact scan_number_float (lowerStrip s).length 0 (lowerStrip s) t ht

/-! ## The extraction loop never raises -/

theorem higherStep_fail {ts : List Token} {i : Nat}
    (h : higherStep ts i = PriceStep.fail) :
    ∃ t ∈ ts, t.type = TokenType.NUMBER ∧
      pyFloat (removeCommas t.value) = none := by
  unfold higherStep at h
  rcases h0 : ts[i]? with _ | t0
  · simp only [h0] at h
    exact PriceStep.noConfusion h
  · rcases h1 : ts[i + 1]? with _ | t1
    · simp only [h0, h1] at h
      exact PriceStep.noConfusion h
    · rcases h2 : ts[i + 2]? with _ | t2
      · simp only [h0, h1, h2] at h
        exact PriceStep.noConfusion h
      · simp only [h0, h1, h2] at h
        split at h
        · rename_i hcond
          cases hf : pyFloat (removeCommas t2.value) with
          | none => exact ⟨t2, List.getElem?_mem h2, hcond.2.2, hf⟩
          | some v =>
            simp only [hf] at h
            exact PriceStep.noConfusion h
        · exact PriceStep.noConfusion h

theorem betweenStep_fail {ts : List Token} {i : Nat}
    (h : betweenStep ts i = PriceStep.fail) :
    ∃ t ∈ ts, t.type = TokenType.NUMBER ∧
      pyFloat (removeCommas t.value) = none := by
  unfold betweenStep at h
  rcases h0 : ts[i]? with _ | t0
  · simp only [h0] at h
    exact PriceStep.noConfusion h
  · rcases h1 : ts[i + 1]? with _ | t1
    · simp only [h0, h1] at h
      exact PriceStep.noConfusion h
    · rcases h2 : ts[i + 2]? with _ | t2
      · simp only [h0, h1, h2] at h
        exact PriceStep.noConfusion h
      · rcases h3 : ts[i + 3]? with _ | t3
        · simp only [h0, h1, h2, h3] at h
          exact PriceStep.noConfusion h
        · simp only [h0, h1, h2, h3] at h
          split at h
          · rename_i hcond
            cases hf1 : pyFloat (removeCommas t1.value) with
            | none => exact ⟨t1, List.getElem?_mem h1, hcond.2.1, hf1⟩
            | some v1 =>
              cases hf2 : pyFloat (removeCommas t3.value) with
              | none => exact ⟨t3, List.getElem?_mem h3, hcond.2.2.2, hf2⟩
              | some v2 =>
                simp only [hf1, hf2] at h
                exact PriceStep.noConfusion h
          · exact PriceStep.noConfusion h

theorem parse_price_condition_fail {ts : List Token} {i : Nat}
    (h : parse_price_condition ts i = PriceStep.fail) :
    ∃ t ∈ ts, t.type = TokenType.NUMBER ∧
      pyFloat (removeCommas t.value) = none := by
  unfold parse_price_condition at h
  cases hh : higherStep ts i with
  | noMatch =>
    simp only [hh] at h
    exact betweenStep_fail h
  | matched cs j =>
    simp only [hh] at h
    exact PriceStep.noConfusion h
  | fail => exact higherStep_fail hh

theorem parseGo_isSome {ts : List Token}
    (hnum : ∀ t ∈ ts, t.type = TokenType.NUMBER →
      (pyFloat (removeCommas t.value)).isSome = true) :
    ∀ (fuel i : Nat), (parseGo fuel ts i).isSome = true := by
  intro fuel
  induction fuel with
  | zero => intro i; rfl
  | succ fuel ih =>
    intro i
    simp only [parseGo]
    cases hg : ts[i]? with
    | none => simp
    | some t =>
      simp only []
      split
      · exact ih (i + 1)
      · cases hp : parse_price_condition ts i with
        | fail =>
          obtain ⟨t2, hmem, ht2, hfl⟩ := parse_price_condition_fail hp
          have hctr := hnum t2 hmem ht2
          rw [hfl] at hctr
          simp at hctr
        | matched cs j =>
          simp only [hp]
          obtain ⟨rr, hrr⟩ := Option.isSome_iff_exists.mp (ih j)
          rw [hrr]
          simp
        | noMatch =>
          simp only [hp]
          rcases hc : parse_car_condition ts i with _ | ⟨c0, j⟩
          · simp only [hc]
            exact ih (i + 1)
          · simp only [hc]
            obtain ⟨rr, hrr⟩ := Option.isSome_iff_exists.mp (ih j)
            rw [hrr]
            simp

/-! ## Claim theorems -/

/-- C8: for every input string, tokenize is total and every character is
accounted for — the lengths of the emitted token values plus the number
of skipped whitespace characters (those skipped inside the scan loop
together with the leading/trailing whitespace removed by the `strip()`
preprocessing, proved whitespace by the `pre`/`post` conjuncts) add up
to the length of the original input string. -/
theorem tokenize_length_reconstruction (s : List Char) :
    ∃ pre post : List Char,
      s.map Char.toLower = pre ++ lowerStrip s ++ post ∧
      (∀ c ∈ pre, isSpace c = true) ∧
      (∀ c ∈ post, isSpace c = true) ∧
      sumValueLens (tokenize s) + (wsSkips s + (pre.length + post.length)) =
        s.length := by
  obtain ⟨pre, post, hdec, hpre, hpost⟩ := pyStrip_decomp (s.map Char.toLower)
  have hps : lowerStrip s = pyStrip (s.map Char.toLower) := rfl
  rw [← hps] at hdec
  refine ⟨pre, post, hdec, hpre, hpost, ?_⟩
  have hscan := scan_len (lowerStrip s).length 0 (lowerStrip s)
    (Nat.le_refl _)
  have hlen : s.length =
      pre.length + ((lowerStrip s).length + post.length) := by
    have hmap : (s.map Char.toLower).length = s.length := List.length_map _ _
    have hl2 := congrArg List.length hdec
    rw [hmap] at hl2
    simp [List.length_append] at hl2
    omega
  unfold tokenize wsSkips
  omega

/-- C9: the tokenizer never emits an OPERATOR token — the `\b`-anchored
operator pattern `\b(>=|<=|>|<|=|!=)\b` can never match, because its
leading word boundary requires a word character where every alternative
starts with a non-word character — and any token whose text contains one
of the comparison characters `>`, `<`, `=`, `!` is a single-character
UNKNOWN token. -/
theorem tokenize_no_operator_tokens (s : List Char) (t : Token)
    (ht : t ∈ tokenize s) :
    t.type ≠ TokenType.OPERATOR ∧
    (∀ c ∈ t.value, (c = '>' ∨ c = '<' ∨ c = '=' ∨ c = '!') →
      t.type = TokenType.UNKNOWN ∧ t.value = [c]) :=
  scan_tokens_ops (lowerStrip s).length 0 (lowerStrip s) t ht

/-- Witness for C9: on the concrete input ">" the tokenizer emits the
single-character UNKNOWN token, which is not an OPERATOR token. -/
theorem tokenize_no_operator_tokens_witness :
    (⟨TokenType.UNKNOWN, [('>')], 0⟩ : Token) ∈ tokenize (chars (">")) ∧
    (⟨TokenType.UNKNOWN, [('>')], 0⟩ : Token).type ≠ TokenType.OPERATOR :=
  ⟨by decide, (tokenize_no_operator_tokens (chars (">"))
    ⟨TokenType.UNKNOWN, [('>')], 0⟩ (by decide)).1⟩

/-- C3 (amended): for every input string the parser terminates and
returns a list of search conditions without raising an exception — the
`float(...)` calls inside matched price phrases can never fail on
tokenizer-produced NUMBER tokens, and every other loop step is total.
Unparseable fragments never abort the parse, but they are skipped and
contribute no conditions rather than degrading to literal search text. -/
theorem parse_total (s : List Char) : ∃ cs, parse s = some cs :=
  Option.isSome_iff_exists.mp
    (parseGo_isSome (tokenize_number_float s) ((tokenize s).length + 1) 0)

/-- C3 counterexample to the literal-text clause: the unparseable
fragment "xyz" is dropped entirely — the parse returns no conditions at
all, not a free-text title condition containing "xyz". -/
theorem parse_unknown_fragment_dropped :
    parse (chars ("xyz")) = some [] := by decide

/-- C1: evaluating `QueryParser.parse` on "find toyota aqua" yields only
the brand condition `title ~ "toyota"`; the residual word "aqua" (four
UNKNOWN tokens) is dropped by the loop, contradicting the claim that
"aqua" is never dropped from the produced conditions. -/
theorem parse_find_toyota_aqua :
    parse (chars ("find toyota aqua")) =
      some [{ field := chars ("title"), operator := chars ("~"),
              value := CondValue.str (chars ("toyota")),
              logical_operator := chars ("&&") }] := by decide

/-- C2: on the advertised dash forms of the range phrase the extractor
produces no conditions at all — the dash is an UNKNOWN token, so the
`BETWEEN NUMBER AND NUMBER` token rule never fires, and the surrounding
words are dropped — contradicting the claim of two pricing conditions
plus a title condition. -/
theorem parse_between_dash_form :
    parse (chars ("find prius between 6,000,000 - 9,000,000")) = some [] ∧
    parse (chars ("find prius between 6000000-9000000")) = some [] :=
  ⟨by decide, by decide⟩

/-- C4: on "find aqua higher than 5,000,000" the comparison-phrase rule
emits exactly the condition `pricing >= 5000000` (and `<=` for LOWER on
the companion input), but "aqua"/"civic" do not survive as title
residual terms — no title condition is produced, contradicting the
claim's residual clause. -/
theorem parse_comparison_rule_eval :
    parse (chars ("find aqua higher than 5,000,000")) =
      some [{ field := chars ("pricing"), operator := chars (">="),
              value := CondValue.num 5000000,
              logical_operator := chars ("&&") }] ∧
    parse (chars ("find civic lower than 8,000,000")) =
      some [{ field := chars ("pricing"), operator := chars ("<="),
              value := CondValue.num 8000000,
              logical_operator := chars ("&&") }] :=
  ⟨by decide, by decide⟩

/-- C5 counterexample: the bare message "find" is classified "unknown",
not "no_search_term" — the message is stripped before the
`startswith("find ")` test, so a stripped message can never pass the
prefix test yet leave an empty search term. -/
theorem get_message_type_find_is_unknown :
    get_message_type (chars ("find")) = (chars ("unknown"), none) := by
  decide

/-- C5 (amended): every message is classified into one of the five
types; "hi" is a greeting; "find" alone is classified unknown (the
no_search_term branch is unreachable); and "next" for a user whose
stored last_search_query is empty yields the no-previous-search
response for every search collaborator — i.e. without the search being
consulted. -/
theorem dispatcher_classification :
    (∀ m : List Char,
      (get_message_type m).1 ∈
        [chars ("greeting"), chars ("car_search"),
         chars ("no_search_term"), chars ("next_page"),
         chars ("unknown")]) ∧
    get_message_type (chars ("hi")) = (chars ("greeting"), none) ∧
    get_message_type (chars ("find")) = (chars ("unknown"), none) ∧
    (∀ (Res : Type) (svt : List Char → Nat → Res)
      (fmt : Res → List Char) (resultsEmpty : Res → Bool)
      (u : WhatsappUser) (uid : List Char),
      u.last_search_query = [] → uid ≠ [] →
      generate_response svt fmt resultsEmpty (some u) (chars ("next"))
        (some uid) = RESPONSES_no_previous_search) := by
  refine ⟨?_, by decide, by decide, ?_⟩
  · intro m
    unfold get_message_type
    dsimp only
    split
    · simp
    · split
      · split
        · simp
        · simp
      · split
        · simp
        · simp
  · intro Res svt fmt resultsEmpty u uid hu huid
    have hmt : get_message_type (chars ("next")) =
        (chars ("next_page"), none) := by decide
    have htr : optTruthy (some uid) = true := by
      cases uid with
      | nil => exact absurd rfl huid
      | cons a b => rfl
    simp only [generate_response, hmt]
    rw [if_neg (by decide), if_pos ⟨trivial, htr⟩, if_pos hu]

/-- Witness for C5 at a concrete collaborator and user record. -/
theorem dispatcher_classification_witness :
    generate_response (fun (_ : List Char) (_ : Nat) => ())
      (fun _ => ([] : List Char)) (fun _ => true)
      (some ⟨[], 0⟩) (chars ("next")) (some (chars ("x"))) =
      RESPONSES_no_previous_search :=
  dispatcher_classification.2.2.2 Unit (fun _ _ => ()) (fun _ => [])
    (fun _ => true) ⟨[], 0⟩ (chars ("x")) rfl (by decide)

/-- C6 counterexample: on "5Rs" the claim's prefix-stripping wording
predicts failure — there is no leading currency prefix and the
remainder "5Rs" is not an integer literal — but `parse_price` removes
the substring anywhere and returns 5. -/
theorem parse_price_not_prefix_only :
    parse_price (chars ("5Rs")) = some 5 ∧
    pyInt (claimPrefixRemainder (chars ("5Rs"))) = none :=
  ⟨by decide, by decide⟩

/-- C6 (amended): `parse_price` returns 6500000 on the three example
inputs and fails on "abc"; it fails exactly when, after removing every
occurrence of "Rs." and then "Rs" anywhere in the string, trimming
whitespace and removing all commas, the remainder is not a valid
base-10 integer literal. -/
theorem parse_price_spec :
    parse_price (chars ("6,500,000")) = some 6500000 ∧
    parse_price (chars ("Rs.6500000")) = some 6500000 ∧
    parse_price (chars ("Rs 6,500,000")) = some 6500000 ∧
    parse_price (chars ("abc")) = none ∧
    ∀ s : List Char, parse_price s = none ↔
      pyInt (removeCommas (pyStrip (replaceAll (chars ("Rs"))
        (replaceAll (chars ("Rs.")) s)))) = none :=
  ⟨by decide, by decide, by decide, by decide, fun s => Iff.rfl⟩

/-- C7: the currency prefix stripping is case-sensitive — the source
replaces only the literal substrings "Rs." and "Rs" — so the lowercase
form "rs 6,500,000" raises (modelled `none`) while the capitalized form
succeeds; the claim's case-insensitive stripping does not hold. -/
theorem parse_price_lowercase_rs_fails :
    parse_price (chars ("rs 6,500,000")) = none ∧
    parse_price (chars ("Rs 6,500,000")) = some 6500000 :=
  ⟨by decide, by decide⟩

/-- C10: `parse_price` removes the substrings "Rs.", "Rs" and "," from
anywhere in its input, not only as a leading currency prefix:
digit-interleaved occurrences are deleted and the remaining digits are
parsed as one integer. -/
theorem parse_price_removes_everywhere :
    parse_price (chars ("6Rs5")) = some 65 ∧
    parse_price (chars ("6,5,0")) = some 650 ∧
    parse_price (chars ("6Rs.5")) = some 65 :=
  ⟨by decide, by decide, by decide⟩

end CarFinder
